import Mathlib

/-!
Verification development for the border-compositing engine in
`src/borders/src/lib.rs` (crate `borders` of `capscr-plugins`).

The engine is shallowly embedded: RGBA8 pixels are records of `Nat`
channel values, an image is a pair of dimensions plus a pixel function,
and each rendering stage of `apply_border` is translated from the Rust
source.  Machine integers (`u32`, `i32`) are modelled by `Nat` / `Int`;
`saturating_sub` on `u32` coincides with truncated subtraction on `Nat`,
and `saturating_add` is written out explicitly.  Where the source uses a
plain (unchecked) `u32` operation whose overflow or underflow matters to
a claim, a separate checked model (`chkAdd` / `chkSub`) is used, which
returns `none` exactly when the `u32` operation would leave `[0, 2^32)`.

Rendering loops that only ever write a single colour per stage (solid,
dashed, double borders, the corner mask, the content copy, and the
shadow pass, whose write targets are pairwise distinct) are translated
to their pointwise form: the pixel at `(a, b)` after the stage is the
written value if some loop iteration writes `(a, b)`, and the previous
value otherwise.  This is exactly the sequential semantics of the Rust
loops because no two iterations of one such stage write different
values to the same coordinate.  The groove/ridge and inset/outset
styles write two different shades with order-dependent overlaps at ring
corners, so they are kept as literal sequential folds.

Floating point: `blend_pixel` and the shadow falloff use `f32`; they
are modelled in exact arithmetic (`ℚ`, and integer square roots for the
falloff), which is the arithmetic the specification describes.  The
comparison `sqrt s > r` on `f32` agrees with the exact `s > r * r` for
the magnitudes involved, and `as u8` on the non-negative in-range
values produced here is truncation toward zero.
-/

namespace Borders

/-- An RGBA8 pixel; each channel is a `Nat` holding a value in `[0, 256)`. -/
structure Rgba where
  r : Nat
  g : Nat
  b : Nat
  a : Nat
deriving DecidableEq, Repr

/-- An image: dimensions plus a pixel lookup function (`image::RgbaImage`). -/
structure Img where
  width : Nat
  height : Nat
  pix : Nat → Nat → Rgba

/-- `RgbaImage::put_pixel` (call sites guard bounds; the write itself is total here). -/
def Img.putPixel (img : Img) (x y : Nat) (p : Rgba) : Img :=
  { img with pix := fun u v => if u = x ∧ v = y then p else img.pix u v }

/-- `RgbaImage::from_pixel`: a `w × h` canvas filled with one colour. -/
def Img.fill (w h : Nat) (c : Rgba) : Img :=
  ⟨w, h, fun _ _ => c⟩

/-- `ShadowConfig` from the source: signed offsets, blur radius, colour. -/
structure ShadowConfig where
  offset_x : Int
  offset_y : Int
  blur_radius : Nat
  color : Rgba

/-- The eight border styles of `BorderStyle`. -/
inductive BorderStyle where
  | solid
  | double
  | dashed
  | dotted
  | groove
  | ridge
  | inset
  | outset
deriving DecidableEq, Repr

/-- `BorderConfig` (the fields the engine reads; `enabled` / `only_modes`
gate invocation at the caller and are not part of the pixel pipeline). -/
structure BorderConfig where
  style : BorderStyle
  size : Nat
  color : Rgba
  corner_radius : Nat
  shadow : Option ShadowConfig
  padding : Nat
  background_color : Option Rgba

/-- `calculate_shadow_extra` (lines 151-160): per-axis extra canvas room,
`|offset| + blur * 2` when a shadow is configured, `(0, 0)` otherwise. -/
def calculateShadowExtra (shadow : Option ShadowConfig) : Nat × Nat :=
  match shadow with
  | some sh => (sh.offset_x.natAbs + sh.blur_radius * 2, sh.offset_y.natAbs + sh.blur_radius * 2)
  | none => (0, 0)

/-- `content_x` of `apply_border` (line 128):
`border + padding + shadow_extra.0.saturating_sub(shadow_extra.0 / 2)`. -/
def contentX (cfg : BorderConfig) : Nat :=
  cfg.size + cfg.padding +
    ((calculateShadowExtra cfg.shadow).1 - (calculateShadowExtra cfg.shadow).1 / 2)

/-- `content_y` of `apply_border` (line 129). -/
def contentY (cfg : BorderConfig) : Nat :=
  cfg.size + cfg.padding +
    ((calculateShadowExtra cfg.shadow).2 - (calculateShadowExtra cfg.shadow).2 / 2)

/-- `base_x` recomputed inside `draw_shadow` (line 167), as an `i32`. -/
def shadowBaseX (cfg : BorderConfig) : Int :=
  ((cfg.size + cfg.padding +
    ((calculateShadowExtra cfg.shadow).1 - (calculateShadowExtra cfg.shadow).1 / 2) : Nat) : Int)

/-- `base_y` recomputed inside `draw_shadow` (line 168), as an `i32`. -/
def shadowBaseY (cfg : BorderConfig) : Int :=
  ((cfg.size + cfg.padding +
    ((calculateShadowExtra cfg.shadow).2 - (calculateShadowExtra cfg.shadow).2 / 2) : Nat) : Int)

/-- The Rust `as u8` cast applied to the non-negative in-range `f32`
values of `blend_pixel` and the shadow falloff: truncation toward zero. -/
def quantU8 (q : ℚ) : Nat :=
  Int.toNat ⌊q⌋

/-- `blend_pixel` (lines 471-495), source-over compositing, in exact
arithmetic.  Alphas are normalised to `[0, 1]` by dividing by 255; if
the resulting alpha is zero the destination is returned unchanged,
otherwise each channel is the alpha-weighted average re-quantized by
truncation, and the output alpha is `out_a * 255` truncated. -/
def blendPixel (dst src : Rgba) : Rgba :=
  let srcA : ℚ := (src.a : ℚ) / 255
  let dstA : ℚ := (dst.a : ℚ) / 255
  let outA : ℚ := srcA + dstA * (1 - srcA)
  if outA = 0 then dst
  else
    Rgba.mk
      (quantU8 (((src.r : ℚ) * srcA + (dst.r : ℚ) * dstA * (1 - srcA)) / outA))
      (quantU8 (((src.g : ℚ) * srcA + (dst.g : ℚ) * dstA * (1 - srcA)) / outA))
      (quantU8 (((src.b : ℚ) * srcA + (dst.b : ℚ) * dstA * (1 - srcA)) / outA))
      (quantU8 (outA * 255))

/-- `blend_pixel` as an image operation, including its bounds guard
(lines 472-474): out-of-range blends are silently dropped. -/
def blendPixelAt (img : Img) (x y : Nat) (src : Rgba) : Img :=
  if img.width ≤ x ∨ img.height ≤ y then img
  else img.putPixel x y (blendPixel (img.pix x y) src)

/-- Least `k` with `m ≤ k * k`, i.e. `⌈Real.sqrt m⌉₊` (proved below). -/
def ceilSqrt (m : Nat) : Nat :=
  if Nat.sqrt m * Nat.sqrt m = m then Nat.sqrt m else Nat.sqrt m + 1

/-- The shadow alpha of `draw_shadow` (lines 206-211) as a function of
the squared distance `s`: the source computes
`(color_a as f32 * factor * factor) as u8` with
`factor = 1 - sqrt s / blur`, i.e. `⌊a * (1 - sqrt s / blur)^2⌋`.
This definition computes that value in exact integer arithmetic via
`⌊(a*(blur^2+s) - ⌈2*a*blur*sqrt s⌉) / blur^2⌋`; the agreement with the
real-number closed form is the theorem `shadowAlphaVal_eq_floor`.
With `blur = 0` the configured alpha is used unchanged (line 210). -/
def shadowAlphaVal (a blur s : Nat) : Nat :=
  if blur = 0 then a
  else (a * (blur * blur + s) - ceilSqrt (4 * a * a * blur * blur * s)) / (blur * blur)

/-- The skip test of `draw_shadow` (line 202): `blur > 0 && dist > blur`
with `dist = sqrt s`; `sqrt s > blur` iff `s > blur * blur`. -/
def shadowSkip (blur s : Nat) : Bool :=
  decide (0 < blur ∧ blur * blur < s)

/-- The per-axis rectilinear distance of `draw_shadow` (lines 185-199):
zero inside the span `[0, c)`, otherwise the distance outside it. -/
def distComp (v c : Int) : Int :=
  if v < 0 then -v
  else if c ≤ v then v - c + 1
  else 0

/-- Squared distance-to-rectangle metric of `draw_shadow` (line 201):
`dist_x * dist_x + dist_y * dist_y` (the source then takes its `f32`
square root, which only ever feeds the comparisons modelled above). -/
def shadowDistSq (x y cw ch : Int) : Int :=
  distComp x cw * distComp x cw + distComp y ch * distComp y ch

/-- `draw_shadow` (lines 162-218), pointwise.  The source iterates
`x ∈ [-blur, cw+blur]`, `y ∈ [-blur, ch+blur]` and blends one pixel at
`(base + offset + x, base + offset + y)`; distinct iterations target
distinct pixels, so the stage is the pointwise image below: a canvas
pixel `(u, v)` is blended iff its unique loop preimage
`(u - sx, v - sy)` lies in the iteration range, the canvas bounds check
passes, and the blur-distance skip does not fire. -/
def drawShadow (cfg : BorderConfig) (img : Img) (cw ch : Nat) (sh : ShadowConfig) : Img :=
  let blur : Int := (sh.blur_radius : Int)
  let sx : Int := shadowBaseX cfg + sh.offset_x
  let sy : Int := shadowBaseY cfg + sh.offset_y
  { img with pix := fun u v =>
      let x : Int := (u : Int) - sx
      let y : Int := (v : Int) - sy
      if -blur ≤ x ∧ x ≤ (cw : Int) + blur ∧ -blur ≤ y ∧ y ≤ (ch : Int) + blur
          ∧ u < img.width ∧ v < img.height then
        let s : Nat := (shadowDistSq x y (cw : Int) (ch : Int)).toNat
        let shPix : Rgba :=
          Rgba.mk sh.color.r sh.color.g sh.color.b (shadowAlphaVal sh.color.a sh.blur_radius s)
        if shadowSkip sh.blur_radius s then img.pix u v else blendPixel (img.pix u v) shPix
      else img.pix u v }

/-- Whether ring `i` of `draw_solid_border` (lines 256-284) writes the
pixel `(u, v)`: the ring bounds are `x1 = cx.saturating_sub(i+1)` (on
`Nat`, truncated subtraction), `x2 = cx + cw + i`, analogously for `y`;
the horizontal pass writes rows `y1` and `y2` over `x ∈ [x1, x2]` and
the vertical pass columns `x1` and `x2` over `y ∈ [y1, y2]`, each write
guarded by the canvas bounds exactly as in the source. -/
def solidHit (w h cx cy cw ch i u v : Nat) : Prop :=
  (cx - (i + 1) ≤ u ∧ u ≤ cx + cw + i ∧ u < w ∧
    ((v = cy - (i + 1) ∧ cy - (i + 1) < h) ∨ (v = cy + ch + i ∧ cy + ch + i < h))) ∨
  (cy - (i + 1) ≤ v ∧ v ≤ cy + ch + i ∧ v < h ∧
    ((u = cx - (i + 1) ∧ cx - (i + 1) < w) ∨ (u = cx + cw + i ∧ cx + cw + i < w)))

instance (w h cx cy cw ch i u v : Nat) : Decidable (solidHit w h cx cy cw ch i u v) := by
  unfold solidHit
  infer_instance

/-- `draw_solid_border` (lines 256-284), pointwise: every write of the
stage carries the same colour, so the sequential loop is equivalent to
testing whether any ring writes the pixel. -/
def drawSolidBorder (img : Img) (cx cy cw ch border : Nat) (c : Rgba) : Img :=
  { img with pix := fun u v =>
      let hit := (List.range border).any
        fun i => decide (solidHit img.width img.height cx cy cw ch i u v)
      if hit then c else img.pix u v }

/-- Whether ring `i` of `draw_dashed_border` (lines 300-333) writes the
pixel `(u, v)`; the dash counter `pos` starts at 0 at each edge start
and increments every iteration, so `pos = u - x1` on rows and
`pos = v - y1` on columns, and the pixel is written when
`pos % (dash_len + gap_len) < dash_len`. -/
def dashedHit (w h cx cy cw ch dashLen gapLen i u v : Nat) : Prop :=
  (cx - (i + 1) ≤ u ∧ u ≤ cx + cw + i ∧ u < w ∧
      (u - (cx - (i + 1))) % (dashLen + gapLen) < dashLen ∧
    ((v = cy - (i + 1) ∧ cy - (i + 1) < h) ∨ (v = cy + ch + i ∧ cy + ch + i < h))) ∨
  (cy - (i + 1) ≤ v ∧ v ≤ cy + ch + i ∧ v < h ∧
      (v - (cy - (i + 1))) % (dashLen + gapLen) < dashLen ∧
    ((u = cx - (i + 1) ∧ cx - (i + 1) < w) ∨ (u = cx + cw + i ∧ cx + cw + i < w)))

instance (w h cx cy cw ch dashLen gapLen i u v : Nat) :
    Decidable (dashedHit w h cx cy cw ch dashLen gapLen i u v) := by
  unfold dashedHit
  infer_instance

/-- `draw_dashed_border` (lines 300-333), pointwise (single colour). -/
def drawDashedBorder (img : Img) (cx cy cw ch border : Nat) (c : Rgba)
    (dashLen gapLen : Nat) : Img :=
  { img with pix := fun u v =>
      let hit := (List.range border).any
        fun i => decide (dashedHit img.width img.height cx cy cw ch dashLen gapLen i u v)
      if hit then c else img.pix u v }

/-- `outer_width` of `draw_double_border` (line 287). -/
def doubleOuterWidth (border : Nat) : Nat :=
  border / 3

/-- `inner_width` of `draw_double_border` (line 288). -/
def doubleInnerWidth (border : Nat) : Nat :=
  border / 3

/-- `gap` of `draw_double_border` (line 289). -/
def doubleGap (border : Nat) : Nat :=
  border - doubleOuterWidth border - doubleInnerWidth border

/-- `draw_double_border` (lines 286-298): an inner solid ring of width
`inner` flush against the content, then an outer solid ring of width
`outer` for a content rectangle grown by `inner + gap` on every side
(`saturating_sub` is `Nat` subtraction). -/
def drawDoubleBorder (img : Img) (cx cy cw ch border : Nat) (c : Rgba) : Img :=
  let inner := doubleInnerWidth border
  let outer := doubleOuterWidth border
  let gap := doubleGap border
  drawSolidBorder (drawSolidBorder img cx cy cw ch inner c)
    (cx - (inner + gap)) (cy - (inner + gap))
    (cw + (inner + gap) * 2) (ch + (inner + gap) * 2) outer c

/-- `calculate_3d_colors` (lines 434-441): lighten / darken each RGB
channel by 60 with saturating arithmetic, keeping the alpha. -/
def calculate3dColors (base : Rgba) : Rgba × Rgba :=
  (Rgba.mk (min (base.r + 60) 255) (min (base.g + 60) 255) (min (base.b + 60) 255) base.a,
   Rgba.mk (base.r - 60) (base.g - 60) (base.b - 60) base.a)

/-- `for i in 0..n` over an image: iteration `0` first, `n - 1` last. -/
def loopN : Nat → (Nat → Img → Img) → Img → Img
  | 0, _, img => img
  | n + 1, f, img => f n (loopN n f img)

/-- One ring of the 3-d / inset styles: the horizontal pass
(`for x in x1..=x2`, writing rows `y1` with `topC` and `y2` with
`botC`), then the vertical pass (`for y in y1..=y2`, writing columns
`x1` with `topC` and `x2` with `botC`), with the source's bounds
guards.  Kept as a literal sequential fold because the two shades
overlap order-dependently at ring corners. -/
def ringPass (img : Img) (x1 y1 x2 y2 : Nat) (topC botC : Rgba) : Img :=
  let himg := loopN (x2 + 1 - x1)
    (fun k im =>
      let x := x1 + k
      if x < im.width then
        let im2 := if y1 < im.height then im.putPixel x y1 topC else im
        if y2 < im2.height then im2.putPixel x y2 botC else im2
      else im) img
  loopN (y2 + 1 - y1)
    (fun k im =>
      let y := y1 + k
      if y < im.height then
        let im2 := if x1 < im.width then im.putPixel x1 y topC else im
        if x2 < im2.width then im2.putPixel x2 y botC else im2
      else im) himg

/-- `draw_3d_border` (lines 335-399): an outer half of rings and an
inner half of rings, with shade assignment depending on `groove`. -/
def draw3dBorder (img : Img) (cx cy cw ch border : Nat) (c : Rgba) (groove : Bool) : Img :=
  let half := border / 2
  let colors := calculate3dColors c
  let outerTop := if groove then colors.2 else colors.1
  let outerBottom := if groove then colors.1 else colors.2
  let innerTop := if groove then colors.1 else colors.2
  let innerBottom := if groove then colors.2 else colors.1
  let img1 := loopN half
    (fun i im =>
      ringPass im (cx - (half + i + 1)) (cy - (half + i + 1))
        (cx + cw + half + i) (cy + ch + half + i) outerTop outerBottom) img
  loopN half
    (fun i im =>
      ringPass im (cx - (i + 1)) (cy - (i + 1))
        (cx + cw + i) (cy + ch + i) innerTop innerBottom) img1

/-- `draw_inset_border` (lines 401-432): a full-width ring stack with
dark-top shading for inset and light-top for outset. -/
def drawInsetBorder (img : Img) (cx cy cw ch border : Nat) (c : Rgba) (inset : Bool) : Img :=
  let colors := calculate3dColors c
  let topC := if inset then colors.2 else colors.1
  let botC := if inset then colors.1 else colors.2
  loopN border
    (fun i im =>
      ringPass im (cx - (i + 1)) (cy - (i + 1)) (cx + cw + i) (cy + ch + i) topC botC) img

/-- `draw_border` (lines 220-254): no-op when the border size is 0,
otherwise dispatch on the style. -/
def drawBorder (cfg : BorderConfig) (img : Img) (cx cy cw ch : Nat) : Img :=
  if cfg.size = 0 then img
  else
    match cfg.style with
    | BorderStyle.solid => drawSolidBorder img cx cy cw ch cfg.size cfg.color
    | BorderStyle.double => drawDoubleBorder img cx cy cw ch cfg.size cfg.color
    | BorderStyle.dashed => drawDashedBorder img cx cy cw ch cfg.size cfg.color 10 5
    | BorderStyle.dotted => drawDashedBorder img cx cy cw ch cfg.size cfg.color 2 2
    | BorderStyle.groove => draw3dBorder img cx cy cw ch cfg.size cfg.color true
    | BorderStyle.ridge => draw3dBorder img cx cy cw ch cfg.size cfg.color false
    | BorderStyle.inset => drawInsetBorder img cx cy cw ch cfg.size cfg.color true
    | BorderStyle.outset => drawInsetBorder img cx cy cw ch cfg.size cfg.color false

/-- Whether the corner mask of `apply_corner_mask` (lines 443-469)
writes the pixel `(u, v)`.  The four corner anchors come from lines
447-452; `cx.saturating_sub(border)` is `Nat` subtraction, while
`cx + cw + border - radius` is an unchecked `u32` subtraction in the
source (see the checked model below), modelled here by truncated `Nat`
subtraction, exact whenever `radius ≤ cx + cw + border`.  For each
anchor, `dx, dy` range over `[0, radius)`, the target pixel is the
anchor plus `(dx, dy)` with each axis mirrored when its flip flag is
set, and the pixel is cleared when `sqrt (dx^2 + dy^2) > radius`
(equivalently `dx^2 + dy^2 > radius^2`) and the bounds check passes. -/
def maskHit (w h cx cy cw ch radius border u v : Nat) : Prop :=
  ∃ corner ∈ [(cx - border, cy - border, false, false),
      (cx + cw + border - radius, cy - border, true, false),
      (cx - border, cy + ch + border - radius, false, true),
      (cx + cw + border - radius, cy + ch + border - radius, true, true)],
    ∃ dy < radius, ∃ dx < radius,
      (if corner.2.2.1 then corner.1 + radius - 1 - dx else corner.1 + dx) = u ∧
      (if corner.2.2.2 then corner.2.1 + radius - 1 - dy else corner.2.1 + dy) = v ∧
      radius * radius < dx * dx + dy * dy ∧ u < w ∧ v < h

instance (w h cx cy cw ch radius border u v : Nat) :
    Decidable (maskHit w h cx cy cw ch radius border u v) := by
  unfold maskHit
  infer_instance

/-- `apply_corner_mask` (lines 443-469), pointwise: every matched pixel
is overwritten with the fully transparent pixel. -/
def applyCornerMask (img : Img) (cx cy cw ch radius border : Nat) : Img :=
  { img with pix := fun u v =>
      if maskHit img.width img.height cx cy cw ch radius border u v
      then Rgba.mk 0 0 0 0 else img.pix u v }

/-- The copy loop of `apply_border` (lines 133-142), pointwise: each
source pixel `(x, y)` is written to `(cx + x, cy + y)` when that target
is inside the canvas; targets of distinct iterations are distinct. -/
def copyContent (img src : Img) (cx cy : Nat) : Img :=
  { img with pix := fun u v =>
      if cx ≤ u ∧ u < cx + src.width ∧ cy ≤ v ∧ v < cy + src.height
          ∧ u < img.width ∧ v < img.height
      then src.pix (u - cx) (v - cy) else img.pix u v }

/-- `apply_border` (lines 112-149): size the canvas, fill it with the
background colour, draw the shadow (if configured), the border, the
source content, and finally the corner mask (if `corner_radius > 0`). -/
def applyBorder (cfg : BorderConfig) (image : Img) : Img :=
  let border := cfg.size
  let padding := cfg.padding
  let shadowExn := calculateShadowExtra cfg.shadow
  let newW := image.width + (border + padding) * 2 + shadowExn.1
  let newH := image.height + (border + padding) * 2 + shadowExn.2
  let bg := cfg.background_color.getD (Rgba.mk 0 0 0 0)
  let result0 := Img.fill newW newH bg
  let result1 := match cfg.shadow with
    | some sh => drawShadow cfg result0 image.width image.height sh
    | none => result0
  let cx := contentX cfg
  let cy := contentY cfg
  let result2 := drawBorder cfg result1 cx cy image.width image.height
  let result3 := copyContent result2 image cx cy
  if 0 < cfg.corner_radius then
    applyCornerMask result3 cx cy image.width image.height cfg.corner_radius cfg.size
  else result3

/-- The shadow extent in x exactly as the specification words it:
`|shadow.offset| + 2 * shadow.blur_radius` when a shadow is configured,
zero otherwise (compared against `calculateShadowExtra` below). -/
def shadowExtentX (cfg : BorderConfig) : Nat :=
  match cfg.shadow with
  | some sh => sh.offset_x.natAbs + 2 * sh.blur_radius
  | none => 0

/-- The shadow extent in y as the specification words it. -/
def shadowExtentY (cfg : BorderConfig) : Nat :=
  match cfg.shadow with
  | some sh => sh.offset_y.natAbs + 2 * sh.blur_radius
  | none => 0

/-- `u32::MAX`. -/
def u32Max : Nat :=
  4294967295

/-- Checked `u32` addition: `none` exactly when unchecked `+` overflows. -/
def chkAdd (a b : Nat) : Option Nat :=
  if a + b ≤ u32Max then some (a + b) else none

/-- Checked `u32` subtraction: `none` exactly when unchecked `-` underflows. -/
def chkSub (a b : Nat) : Option Nat :=
  if b ≤ a then some (a - b) else none

/-- The corner-anchor expression `cx + cw + border - radius` of
`apply_corner_mask` (lines 449-451) with checked `u32` arithmetic; the
source performs these operations unchecked. -/
def cornerAnchorChecked (cx cw border radius : Nat) : Option Nat :=
  (chkAdd cx cw).bind fun s1 => (chkAdd s1 border).bind fun s2 => chkSub s2 radius

/-- The spec's concrete scenario source: a 100 x 100 opaque white image. -/
def whiteSrc : Img :=
  ⟨100, 100, fun _ _ => Rgba.mk 255 255 255 255⟩

/-- The spec's concrete scenario configuration: Solid style, size 3,
colour `[60,60,60,255]`, padding 0, no shadow, `corner_radius = 10`. -/
def scenarioCfg : BorderConfig :=
  ⟨BorderStyle.solid, 3, Rgba.mk 60 60 60 255, 10, none, 0, none⟩

/-- A 1 x 1 opaque source image (used for the underflow input). -/
def tinySrc : Img :=
  ⟨1, 1, fun _ _ => Rgba.mk 255 255 255 255⟩

/-- Border size 0, padding 0, `corner_radius = 10`: with `tinySrc` the
corner-anchor subtraction `cx + cw + border - radius = 1 - 10`
underflows in `u32`. -/
def tinyCfg : BorderConfig :=
  ⟨BorderStyle.solid, 0, Rgba.mk 60 60 60 255, 10, none, 0, none⟩

/-- A small concrete image used by witnesses. -/
def testImg : Img :=
  ⟨2, 2, fun _ _ => Rgba.mk 1 2 3 4⟩

/-- A concrete configuration with a shadow of odd extent (offset 3,
blur 2, so extent 7), used by witnesses. -/
def oddShadowCfg : BorderConfig :=
  ⟨BorderStyle.solid, 2, Rgba.mk 60 60 60 255, 0,
    some ⟨3, 3, 2, Rgba.mk 0 0 0 128⟩, 1, none⟩

/-! ## Dimension preservation of the rendering stages -/

theorem Img.putPixel_width (img : Img) (x y : Nat) (p : Rgba) :
    (img.putPixel x y p).width = img.width :=
  rfl

theorem Img.putPixel_height (img : Img) (x y : Nat) (p : Rgba) :
    (img.putPixel x y p).height = img.height :=
  rfl

theorem loopN_width (n : Nat) (f : Nat → Img → Img) (img : Img)
    (hf : ∀ i im, (f i im).width = im.width) :
    (loopN n f img).width = img.width := by
  induction n with
  | zero => rfl
  | succ n ih => rw [loopN, hf, ih]

theorem loopN_height (n : Nat) (f : Nat → Img → Img) (img : Img)
    (hf : ∀ i im, (f i im).height = im.height) :
    (loopN n f img).height = img.height := by
  induction n with
  | zero => rfl
  | succ n ih => rw [loopN, hf, ih]

theorem ringPass_width (img : Img) (x1 y1 x2 y2 : Nat) (tc bc : Rgba) :
    (ringPass img x1 y1 x2 y2 tc bc).width = img.width := by
  unfold ringPass
  rw [loopN_width, loopN_width]
  · intro i im
    dsimp only
    split_ifs <;> rfl
  · intro i im
    dsimp only
    split_ifs <;> rfl

theorem ringPass_height (img : Img) (x1 y1 x2 y2 : Nat) (tc bc : Rgba) :
    (ringPass img x1 y1 x2 y2 tc bc).height = img.height := by
  unfold ringPass
  rw [loopN_height, loopN_height]
  · intro i im
    dsimp only
    split_ifs <;> rfl
  · intro i im
    dsimp only
    split_ifs <;> rfl

theorem drawBorder_width (cfg : BorderConfig) (img : Img) (cx cy cw ch : Nat) :
    (drawBorder cfg img cx cy cw ch).width = img.width := by
  unfold drawBorder
  split
  · rfl
  · cases cfg.style
    · rfl
    · rfl
    · rfl
    · rfl
    · unfold draw3dBorder
      dsimp only
      rw [loopN_width, loopN_width] <;> intro i im <;> exact ringPass_width ..
    · unfold draw3dBorder
      dsimp only
      rw [loopN_width, loopN_width] <;> intro i im <;> exact ringPass_width ..
    · unfold drawInsetBorder
      dsimp only
      rw [loopN_width]
      intro i im
      exact ringPass_width ..
    · unfold drawInsetBorder
      dsimp only
      rw [loopN_width]
      intro i im
      exact ringPass_width ..

theorem drawBorder_height (cfg : BorderConfig) (img : Img) (cx cy cw ch : Nat) :
    (drawBorder cfg img cx cy cw ch).height = img.height := by
  unfold drawBorder
  split
  · rfl
  · cases cfg.style
    · rfl
    · rfl
    · rfl
    · rfl
    · unfold draw3dBorder
      dsimp only
      rw [loopN_height, loopN_height] <;> intro i im <;> exact ringPass_height ..
    · unfold draw3dBorder
      dsimp only
      rw [loopN_height, loopN_height] <;> intro i im <;> exact ringPass_height ..
    · unfold drawInsetBorder
      dsimp only
      rw [loopN_height]
      intro i im
      exact ringPass_height ..
    · unfold drawInsetBorder
      dsimp only
      rw [loopN_height]
      intro i im
      exact ringPass_height ..

theorem drawShadow_width (cfg : BorderConfig) (img : Img) (cw ch : Nat) (sh : ShadowConfig) :
    (drawShadow cfg img cw ch sh).width = img.width :=
  rfl

theorem drawShadow_height (cfg : BorderConfig) (img : Img) (cw ch : Nat) (sh : ShadowConfig) :
    (drawShadow cfg img cw ch sh).height = img.height :=
  rfl

theorem copyContent_width (img src : Img) (cx cy : Nat) :
    (copyContent img src cx cy).width = img.width :=
  rfl

theorem copyContent_height (img src : Img) (cx cy : Nat) :
    (copyContent img src cx cy).height = img.height :=
  rfl

theorem applyCornerMask_width (img : Img) (cx cy cw ch radius border : Nat) :
    (applyCornerMask img cx cy cw ch radius border).width = img.width :=
  rfl

theorem applyCornerMask_height (img : Img) (cx cy cw ch radius border : Nat) :
    (applyCornerMask img cx cy cw ch radius border).height = img.height :=
  rfl

/-! ## Claim theorems -/

/-- Claim C3: the output canvas is `src + 2*(border+padding) + extent`
in each axis, where the extent is `|shadow.offset| + 2*blur_radius` with
a shadow and `0` without one; the stated bounds keep the sums inside
`u32`, where the `Nat` model agrees with the unchecked source sums. -/
theorem canvas_dims (cfg : BorderConfig) (img : Img)
    (_hw : img.width + 2 * (cfg.size + cfg.padding) + shadowExtentX cfg ≤ u32Max)
    (_hh : img.height + 2 * (cfg.size + cfg.padding) + shadowExtentY cfg ≤ u32Max) :
    (applyBorder cfg img).width = img.width + 2 * (cfg.size + cfg.padding) + shadowExtentX cfg ∧
    (applyBorder cfg img).height =
      img.height + 2 * (cfg.size + cfg.padding) + shadowExtentY cfg := by
  rcases hsh : cfg.shadow with _ | sh <;>
    simp only [applyBorder, hsh] <;>
    split <;>
    simp only [applyCornerMask_width, applyCornerMask_height, copyContent_width,
      copyContent_height, drawBorder_width, drawBorder_height, drawShadow_width,
      drawShadow_height, Img.fill, shadowExtentX, shadowExtentY, hsh,
      calculateShadowExtra] <;>
    omega

/-- Witness for `canvas_dims` at a concrete configuration and image. -/
theorem canvas_dims_witness :
    testImg.width + 2 * (oddShadowCfg.size + oddShadowCfg.padding) + shadowExtentX oddShadowCfg
        ≤ u32Max ∧
    testImg.height + 2 * (oddShadowCfg.size + oddShadowCfg.padding) + shadowExtentY oddShadowCfg
        ≤ u32Max ∧
    ((applyBorder oddShadowCfg testImg).width =
        testImg.width + 2 * (oddShadowCfg.size + oddShadowCfg.padding) +
          shadowExtentX oddShadowCfg ∧
      (applyBorder oddShadowCfg testImg).height =
        testImg.height + 2 * (oddShadowCfg.size + oddShadowCfg.padding) +
          shadowExtentY oddShadowCfg) :=
  ⟨by decide, by decide, canvas_dims oddShadowCfg testImg (by decide) (by decide)⟩

/-- Claim C9: with border size 0, `draw_border` returns the canvas
untouched for every style (the early return at line 224 fires before
any style dispatch). -/
theorem draw_border_size_zero (cfg : BorderConfig) (img : Img) (cx cy cw ch : Nat)
    (h : cfg.size = 0) :
    drawBorder cfg img cx cy cw ch = img := by
  unfold drawBorder
  rw [if_pos h]

/-- Witness for `draw_border_size_zero` on a dashed-style configuration. -/
theorem draw_border_size_zero_witness :
    (⟨BorderStyle.dashed, 0, Rgba.mk 9 9 9 255, 0, none, 7, none⟩ : BorderConfig).size = 0 ∧
    drawBorder ⟨BorderStyle.dashed, 0, Rgba.mk 9 9 9 255, 0, none, 7, none⟩ testImg 1 2 3 4 =
      testImg :=
  ⟨rfl, draw_border_size_zero _ testImg 1 2 3 4 rfl⟩

/-- Claim C7: the Double style splits its thickness as
`outer = size / 3 = inner` with `gap` the remainder, draws the inner
solid ring flush against the content and the outer solid ring starting
`inner + gap` further out, so `outer + inner + gap = size` and the
outer ring ends exactly `size` pixels from the content edge; for
`size = 9` the split is `3 / 3 / 3`. -/
theorem double_border_split (border cx cy cw ch : Nat) (img : Img) (c : Rgba) :
    doubleOuterWidth border = doubleInnerWidth border ∧
    doubleGap border = border - doubleOuterWidth border - doubleInnerWidth border ∧
    doubleInnerWidth border + doubleGap border + doubleOuterWidth border = border ∧
    drawDoubleBorder img cx cy cw ch border c =
      drawSolidBorder
        (drawSolidBorder img cx cy cw ch (doubleInnerWidth border) c)
        (cx - (doubleInnerWidth border + doubleGap border))
        (cy - (doubleInnerWidth border + doubleGap border))
        (cw + (doubleInnerWidth border + doubleGap border) * 2)
        (ch + (doubleInnerWidth border + doubleGap border) * 2)
        (doubleOuterWidth border) c ∧
    doubleOuterWidth 9 = 3 ∧ doubleInnerWidth 9 = 3 ∧ doubleGap 9 = 3 := by
  refine ⟨rfl, rfl, ?_, rfl, by decide, by decide, by decide⟩
  unfold doubleInnerWidth doubleOuterWidth doubleGap doubleInnerWidth doubleOuterWidth
  omega

/-- Claim C4: for every configuration, the content offset equals
`border + padding + (extent - extent/2)` (truncating division) on each
axis, and `draw_shadow`'s internally recomputed base offset equals the
offset `apply_border` computes (which `apply_border` passes unchanged
to the border renderer and the copy step); whenever the extent is odd,
the leading reserve `extent - extent/2` differs from the trailing
reserve `extent / 2`, so the content is not centred symmetrically. -/
theorem content_offset_shared (cfg : BorderConfig) :
    shadowBaseX cfg = (contentX cfg : Int) ∧
    shadowBaseY cfg = (contentY cfg : Int) ∧
    contentX cfg = cfg.size + cfg.padding +
      ((calculateShadowExtra cfg.shadow).1 - (calculateShadowExtra cfg.shadow).1 / 2) ∧
    contentY cfg = cfg.size + cfg.padding +
      ((calculateShadowExtra cfg.shadow).2 - (calculateShadowExtra cfg.shadow).2 / 2) ∧
    ((calculateShadowExtra cfg.shadow).1 % 2 = 1 →
      (calculateShadowExtra cfg.shadow).1 - (calculateShadowExtra cfg.shadow).1 / 2 ≠
        (calculateShadowExtra cfg.shadow).1 / 2) := by
  refine ⟨rfl, rfl, rfl, rfl, fun hodd => ?_⟩
  omega

/-- Witness for `content_offset_shared`: at `oddShadowCfg` the x extent
is `3 + 2*2 = 7`, which is odd, and the asymmetry conclusion follows by
applying the theorem and discharging the inner implication. -/
theorem content_offset_shared_witness :
    (calculateShadowExtra oddShadowCfg.shadow).1 % 2 = 1 ∧
    shadowBaseX oddShadowCfg = (contentX oddShadowCfg : Int) ∧
    (calculateShadowExtra oddShadowCfg.shadow).1 -
        (calculateShadowExtra oddShadowCfg.shadow).1 / 2 ≠
      (calculateShadowExtra oddShadowCfg.shadow).1 / 2 :=
  ⟨by decide, (content_offset_shared oddShadowCfg).1,
    (content_offset_shared oddShadowCfg).2.2.2.2 (by decide)⟩

/-- Claim C1 (failing input): in the spec's concrete scenario
(100 x 100 opaque white source, Solid border of size 3 and colour
`[60,60,60,255]`, padding 0, no shadow, `corner_radius = 10`) the
output pixel `(0, 0)` keeps the border colour with alpha 255 instead of
becoming transparent, and the mask instead clears the in-content pixel
`(9, 9)`: `apply_corner_mask` measures the distance from the outer
corner anchor rather than from the rounding-circle centre, so it keeps
the sharp corner and punches out pixels next to the content.  Pixel
`(53, 53)` (the canvas centre) does keep alpha 255. -/
theorem corner_mask_scenario :
    (applyBorder scenarioCfg whiteSrc).pix 0 0 = Rgba.mk 60 60 60 255 ∧
    (applyBorder scenarioCfg whiteSrc).pix 9 9 = Rgba.mk 0 0 0 0 ∧
    (applyBorder scenarioCfg whiteSrc).pix 53 53 = Rgba.mk 255 255 255 255 := by
  decide

/-- Claim C2 (failing input): for a 1 x 1 source with border size 0,
padding 0 and `corner_radius = 10`, the corner-anchor expression
`cx + cw + border - radius` of line 449 evaluates `1 - 10` with
unchecked `u32` subtraction, which underflows; the checked model
returns `none` there, refuting "no computation overflows or
underflows" for the full configuration space. -/
theorem corner_anchor_underflow :
    contentX tinyCfg = 0 ∧
    0 < tinyCfg.corner_radius ∧
    cornerAnchorChecked (contentX tinyCfg) tinySrc.width tinyCfg.size tinyCfg.corner_radius =
      none := by
  decide

theorem Img.fill_width (w h : Nat) (c : Rgba) : (Img.fill w h c).width = w :=
  rfl

theorem Img.fill_height (w h : Nat) (c : Rgba) : (Img.fill w h c).height = h :=
  rfl

/-- `quantU8` is the identity on whole numbers. -/
theorem quantU8_natCast (n : Nat) : quantU8 (n : ℚ) = n := by
  simp [quantU8, Int.floor_natCast]

/-- Claim C8: with `corner_radius = 0` (no corner mask), the canvas
restricted to `[content_offset, content_offset + src_dims)` reproduces
the source pixel-for-pixel, whatever the border style, padding,
background colour, or shadow: the copy step runs after the shadow and
border stages and overwrites the whole content rectangle, whose pixels
all pass the canvas bounds guard. -/
theorem content_fidelity (cfg : BorderConfig) (img : Img) (s t : Nat)
    (hs : s < img.width) (ht : t < img.height) (hr : cfg.corner_radius = 0) :
    (applyBorder cfg img).pix (contentX cfg + s) (contentY cfg + t) = img.pix s t := by
  have hnotr : ¬ 0 < cfg.corner_radius := by omega
  rcases hsh : cfg.shadow with _ | sh
  all_goals
    simp only [applyBorder, hsh]
    rw [if_neg hnotr]
    simp only [copyContent, drawBorder_width, drawBorder_height, drawShadow_width,
      drawShadow_height, Img.fill_width, Img.fill_height]
    rw [if_pos (by unfold contentX contentY calculateShadowExtra; simp only [hsh]; omega)]
    rw [Nat.add_sub_cancel_left, Nat.add_sub_cancel_left]

/-- Witness for `content_fidelity` at a concrete configuration. -/
theorem content_fidelity_witness :
    1 < testImg.width ∧ 0 < testImg.height ∧ oddShadowCfg.corner_radius = 0 ∧
    (applyBorder oddShadowCfg testImg).pix (contentX oddShadowCfg + 1)
        (contentY oddShadowCfg + 0) =
      testImg.pix 1 0 :=
  ⟨by decide, by decide, by decide,
    content_fidelity oddShadowCfg testImg 1 0 (by decide) (by decide) (by decide)⟩

/-- Claim C5: `blend_pixel` is source-over with alphas normalised from
8-bit to `[0, 1]`: writing `out_a = src_a + dst_a * (1 - src_a)`, a
zero `out_a` leaves the destination pixel completely unchanged, and
otherwise each colour channel becomes
`(src_c * src_a + dst_c * dst_a * (1 - src_a)) / out_a` truncated to
8-bit and the alpha becomes `out_a * 255` truncated to 8-bit. -/
theorem blend_source_over (dst src : Rgba) :
    ((src.a : ℚ) / 255 + (dst.a : ℚ) / 255 * (1 - (src.a : ℚ) / 255) = 0 →
      blendPixel dst src = dst) ∧
    ((src.a : ℚ) / 255 + (dst.a : ℚ) / 255 * (1 - (src.a : ℚ) / 255) ≠ 0 →
      blendPixel dst src = Rgba.mk
        (quantU8 (((src.r : ℚ) * ((src.a : ℚ) / 255) +
            (dst.r : ℚ) * ((dst.a : ℚ) / 255) * (1 - (src.a : ℚ) / 255)) /
          ((src.a : ℚ) / 255 + (dst.a : ℚ) / 255 * (1 - (src.a : ℚ) / 255))))
        (quantU8 (((src.g : ℚ) * ((src.a : ℚ) / 255) +
            (dst.g : ℚ) * ((dst.a : ℚ) / 255) * (1 - (src.a : ℚ) / 255)) /
          ((src.a : ℚ) / 255 + (dst.a : ℚ) / 255 * (1 - (src.a : ℚ) / 255))))
        (quantU8 (((src.b : ℚ) * ((src.a : ℚ) / 255) +
            (dst.b : ℚ) * ((dst.a : ℚ) / 255) * (1 - (src.a : ℚ) / 255)) /
          ((src.a : ℚ) / 255 + (dst.a : ℚ) / 255 * (1 - (src.a : ℚ) / 255))))
        (quantU8 (((src.a : ℚ) / 255 + (dst.a : ℚ) / 255 * (1 - (src.a : ℚ) / 255)) * 255))) := by
  simp only [blendPixel]
  constructor
  · intro h
    rw [if_pos h]
  · intro h
    rw [if_neg h]

/-- Witness for `blend_source_over`: transparent over transparent is a
no-op, and an opaque source replaces an arbitrary destination. -/
theorem blend_source_over_witness :
    blendPixel (Rgba.mk 1 2 3 0) (Rgba.mk 4 5 6 0) = Rgba.mk 1 2 3 0 ∧
    blendPixel (Rgba.mk 10 20 30 100) (Rgba.mk 200 100 50 255) =
      Rgba.mk (quantU8 ((200 : ℚ) * 1 + 10 * (100 / 255) * 0))
        (quantU8 ((100 : ℚ) * 1 + 20 * (100 / 255) * 0))
        (quantU8 ((50 : ℚ) * 1 + 30 * (100 / 255) * 0)) (quantU8 ((1 : ℚ) * 255)) := by
  constructor
  · exact (blend_source_over (Rgba.mk 1 2 3 0) (Rgba.mk 4 5 6 0)).1 (by norm_num)
  · have h := (blend_source_over (Rgba.mk 10 20 30 100) (Rgba.mk 200 100 50 255)).2 (by norm_num)
    rw [h]
    norm_num

/-- Claim C10: blending a fully opaque source pixel at an in-bounds
coordinate writes exactly the source pixel, independent of the previous
destination value. -/
theorem blend_opaque_source (img : Img) (x y : Nat) (src : Rgba)
    (hx : x < img.width) (hy : y < img.height) (ha : src.a = 255) :
    (blendPixelAt img x y src).pix x y = Rgba.mk src.r src.g src.b 255 := by
  unfold blendPixelAt
  rw [if_neg (by omega)]
  show (if x = x ∧ y = y then blendPixel (img.pix x y) src else img.pix x y) = _
  rw [if_pos ⟨rfl, rfl⟩]
  have h1 : ((src.a : ℚ)) = 255 := by rw [ha]; norm_num
  simp only [blendPixel, h1]
  norm_num [quantU8_natCast]
  rw [show (255 : ℚ) = ((255 : ℕ) : ℚ) by norm_num]
  exact quantU8_natCast 255

/-- Witness for `blend_opaque_source` at a concrete pixel. -/
theorem blend_opaque_source_witness :
    0 < testImg.width ∧ 1 < testImg.height ∧ (Rgba.mk 7 8 9 255).a = 255 ∧
    (blendPixelAt testImg 0 1 (Rgba.mk 7 8 9 255)).pix 0 1 = Rgba.mk 7 8 9 255 :=
  ⟨by decide, by decide, by decide,
    blend_opaque_source testImg 0 1 (Rgba.mk 7 8 9 255) (by decide) (by decide) rfl⟩


/-- `ceilSqrt` is the ceiling of the real square root. -/
theorem ceilSqrt_eq_ceil (m : Nat) : ceilSqrt m = ⌈Real.sqrt (m : ℝ)⌉₊ := by
  unfold ceilSqrt
  by_cases h : Nat.sqrt m * Nat.sqrt m = m
  · rw [if_pos h]
    have hsq : Real.sqrt (m : ℝ) = (Nat.sqrt m : ℝ) := by
      rw [show ((m : ℝ)) = ((Nat.sqrt m : ℝ) * (Nat.sqrt m : ℝ)) by exact_mod_cast h.symm]
      exact Real.sqrt_mul_self (by positivity)
    rw [hsq, Nat.ceil_natCast]
  · rw [if_neg h]
    have h1 : Nat.sqrt m * Nat.sqrt m < m := lt_of_le_of_ne (Nat.sqrt_le m) h
    have h2 : m < (Nat.sqrt m + 1) * (Nat.sqrt m + 1) := Nat.lt_succ_sqrt m
    have h1R : ((Nat.sqrt m : ℝ)) * (Nat.sqrt m : ℝ) < (m : ℝ) := by exact_mod_cast h1
    have h2R : (m : ℝ) < ((Nat.sqrt m : ℝ) + 1) * ((Nat.sqrt m : ℝ) + 1) := by exact_mod_cast h2
    rw [eq_comm, Nat.ceil_eq_iff (by omega)]
    constructor
    · show ((Nat.sqrt m + 1 - 1 : Nat) : ℝ) < Real.sqrt (m : ℝ)
      rw [Nat.add_sub_cancel]
      rw [Real.lt_sqrt (by positivity)]
      nlinarith [h1R]
    · rw [show ((Nat.sqrt m + 1 : Nat) : ℝ) = Real.sqrt (((Nat.sqrt m + 1 : Nat) : ℝ) ^ 2) from
        (Real.sqrt_sq (by positivity)).symm]
      apply Real.sqrt_le_sqrt
      push_cast
      nlinarith [h2R]

/-- Floor of a natural number minus a real in `[0, n]`. -/
theorem nat_floor_sub (n : Nat) (y : ℝ) (h0 : 0 ≤ y) (hn : y ≤ (n : ℝ)) :
    ⌊(n : ℝ) - y⌋₊ = n - ⌈y⌉₊ := by
  have hceil_le : ⌈y⌉₊ ≤ n := Nat.ceil_le.mpr hn
  rw [Nat.floor_eq_iff (by linarith)]
  constructor
  · rw [Nat.cast_sub hceil_le]
    have := Nat.le_ceil y
    linarith
  · rw [Nat.cast_sub hceil_le]
    have := Nat.ceil_lt_add_one h0
    linarith

/-- `shadowAlphaVal` computes the floor of `a * (1 - sqrt s / blur)^2` exactly. -/
theorem shadowAlphaVal_eq_floor (a blur s : Nat) (hb : 0 < blur) :
    shadowAlphaVal a blur s = ⌊(a : ℝ) * (1 - Real.sqrt (s : ℝ) / (blur : ℝ)) ^ 2⌋₊ := by
  have hbR : (0 : ℝ) < (blur : ℝ) := by exact_mod_cast hb
  have hR0 : 0 ≤ Real.sqrt (s : ℝ) := Real.sqrt_nonneg _
  have hRsq : Real.sqrt (s : ℝ) ^ 2 = (s : ℝ) := Real.sq_sqrt (by positivity)
  have hprod : (2 * a * blur : ℝ) * Real.sqrt (s : ℝ) =
      Real.sqrt ((4 * a * a * blur * blur * s : Nat) : ℝ) := by
    rw [show ((4 * a * a * blur * blur * s : Nat) : ℝ) =
        ((2 * a * blur : ℝ)) ^ 2 * (s : ℝ) by push_cast; ring]
    rw [Real.sqrt_mul (by positivity), Real.sqrt_sq (by positivity)]
  have hyA : (2 * a * blur : ℝ) * Real.sqrt (s : ℝ) ≤ ((a * (blur * blur + s) : Nat) : ℝ) := by
    push_cast
    nlinarith [sq_nonneg ((blur : ℝ) - Real.sqrt (s : ℝ)), hRsq, hR0]
  have key : (a : ℝ) * (1 - Real.sqrt (s : ℝ) / (blur : ℝ)) ^ 2 =
      (((a * (blur * blur + s) : Nat) : ℝ) - (2 * a * blur : ℝ) * Real.sqrt (s : ℝ)) /
        ((blur * blur : Nat) : ℝ) := by
    have hA : ((a * (blur * blur + s) : Nat) : ℝ) =
        (a : ℝ) * ((blur : ℝ) * (blur : ℝ)) + (a : ℝ) * Real.sqrt (s : ℝ) ^ 2 := by
      push_cast
      rw [hRsq]
      ring
    rw [hA]
    push_cast
    field_simp
    ring_nf
    linear_combination (a : ℝ) * (blur : ℝ) ^ 2 * hRsq
  rw [key]
  rw [Nat.floor_div_nat
    (((a * (blur * blur + s) : Nat) : ℝ) - (2 * a * blur : ℝ) * Real.sqrt (s : ℝ))
    (blur * blur)]
  rw [nat_floor_sub _ _ (by positivity) hyA]
  unfold shadowAlphaVal
  rw [if_neg (by omega)]
  rw [ceilSqrt_eq_ceil, hprod]


/-- Claim C6 (amended): for `blur_radius = blur > 0`, any pixel whose
squared rectangle distance fails the skip test lies within real
distance `blur` of the content rectangle and `draw_shadow` leaves every
skipped pixel untouched; the painted alpha at squared distance `s`
equals the configured shadow alpha times `(1 - dist/blur)^2` truncated
to 8 bits; and that painted alpha is non-increasing in the distance.
Strict decrease fails after the 8-bit truncation (see the
counterexample), so the claim holds with "strictly decreases" weakened
to "is non-increasing" (strict decrease does hold for the
pre-quantization real-valued falloff, which the formula shows). -/
theorem shadow_falloff (a blur : Nat) (hb : 0 < blur) :
    (∀ s : Nat, shadowSkip blur s = false → Real.sqrt (s : ℝ) ≤ (blur : ℝ)) ∧
    (∀ (cfg : BorderConfig) (img : Img) (cw ch : Nat) (sh : ShadowConfig) (u v : Nat),
      shadowSkip sh.blur_radius
          ((shadowDistSq ((u : Int) - (shadowBaseX cfg + sh.offset_x))
            ((v : Int) - (shadowBaseY cfg + sh.offset_y)) (cw : Int) (ch : Int)).toNat) = true →
      (drawShadow cfg img cw ch sh).pix u v = img.pix u v) ∧
    (∀ s : Nat,
      shadowAlphaVal a blur s = ⌊(a : ℝ) * (1 - Real.sqrt (s : ℝ) / (blur : ℝ)) ^ 2⌋₊) ∧
    (∀ s1 s2 : Nat, s1 ≤ s2 → s2 ≤ blur * blur →
      shadowAlphaVal a blur s2 ≤ shadowAlphaVal a blur s1) := by
  refine ⟨?_, ?_, fun s => shadowAlphaVal_eq_floor a blur s hb, ?_⟩
  · intro s hsk
    have hle : s ≤ blur * blur := by
      by_contra hgt
      simp only [shadowSkip, decide_eq_false_iff_not, not_and, not_lt] at hsk
      omega
    calc Real.sqrt (s : ℝ) ≤ Real.sqrt ((blur : ℝ) * (blur : ℝ)) := by
          apply Real.sqrt_le_sqrt
          exact_mod_cast hle
      _ = (blur : ℝ) := Real.sqrt_mul_self (by positivity)
  · intro cfg img cw ch sh u v hsk
    unfold drawShadow
    dsimp only
    split
    · simp [hsk]
    · rfl
  · intro s1 s2 h12 h2b
    rw [shadowAlphaVal_eq_floor a blur s1 hb, shadowAlphaVal_eq_floor a blur s2 hb]
    apply Nat.floor_mono
    have hs12 : Real.sqrt (s1 : ℝ) ≤ Real.sqrt (s2 : ℝ) :=
      Real.sqrt_le_sqrt (by exact_mod_cast h12)
    have hs2b : Real.sqrt (s2 : ℝ) ≤ (blur : ℝ) := by
      calc Real.sqrt (s2 : ℝ) ≤ Real.sqrt ((blur : ℝ) * (blur : ℝ)) := by
            apply Real.sqrt_le_sqrt
            exact_mod_cast h2b
        _ = (blur : ℝ) := Real.sqrt_mul_self (by positivity)
    have hb1 : (0 : ℝ) < (blur : ℝ) := by exact_mod_cast hb
    have h1 : 0 ≤ 1 - Real.sqrt (s2 : ℝ) / (blur : ℝ) := by
      rw [sub_nonneg, div_le_one hb1]
      exact hs2b
    have h2 : 1 - Real.sqrt (s2 : ℝ) / (blur : ℝ) ≤ 1 - Real.sqrt (s1 : ℝ) / (blur : ℝ) := by
      gcongr
    have h3 := pow_le_pow_left₀ h1 h2 2
    exact mul_le_mul_of_nonneg_left h3 (by positivity)

/-- Witness for `shadow_falloff` at `a = 255`, `blur = 5`. -/
theorem shadow_falloff_witness :
    0 < 5 ∧
    ((∀ s : Nat, shadowSkip 5 s = false → Real.sqrt (s : ℝ) ≤ ((5 : Nat) : ℝ)) ∧
      (∀ (cfg : BorderConfig) (img : Img) (cw ch : Nat) (sh : ShadowConfig) (u v : Nat),
        shadowSkip sh.blur_radius
            ((shadowDistSq ((u : Int) - (shadowBaseX cfg + sh.offset_x))
              ((v : Int) - (shadowBaseY cfg + sh.offset_y)) (cw : Int) (ch : Int)).toNat)
            = true →
        (drawShadow cfg img cw ch sh).pix u v = img.pix u v) ∧
      (∀ s : Nat,
        shadowAlphaVal 255 5 s =
          ⌊((255 : Nat) : ℝ) * (1 - Real.sqrt (s : ℝ) / ((5 : Nat) : ℝ)) ^ 2⌋₊) ∧
      (∀ s1 s2 : Nat, s1 ≤ s2 → s2 ≤ 5 * 5 →
        shadowAlphaVal 255 5 s2 ≤ shadowAlphaVal 255 5 s1)) :=
  ⟨by decide, shadow_falloff 255 5 (by decide)⟩

/-- Claim C6 (counterexample to strictness): with shadow alpha 1 and
`blur = 5`, the pixels at distances 1 and 2 from the content rectangle
are both painted and receive the same quantized alpha (both 0), so the
painted alpha does not strictly decrease with distance. -/
theorem shadow_alpha_not_strict :
    shadowSkip 5 (1 * 1) = false ∧ shadowSkip 5 (2 * 2) = false ∧
    (0 : Nat) < 1 ∧ (1 : Nat) < 2 ∧ (2 : Nat) ≤ 5 ∧
    shadowAlphaVal 1 5 (2 * 2) = shadowAlphaVal 1 5 (1 * 1) ∧
    ¬ shadowAlphaVal 1 5 (2 * 2) < shadowAlphaVal 1 5 (1 * 1) := by
  have h1 : shadowAlphaVal 1 5 (1 * 1) = 0 := by
    norm_num [shadowAlphaVal, ceilSqrt]
  have h2 : shadowAlphaVal 1 5 (2 * 2) = 0 := by
    norm_num [shadowAlphaVal, ceilSqrt]
  refine ⟨by decide, by decide, by decide, by decide, by decide, ?_, ?_⟩
  · rw [h1, h2]
  · rw [h1, h2]
    omega

end Borders
